import Mathlib

/-!
# Shallow embedding of the shortlink core (src/redis.go)

Go byte strings are modelled as Lean `String`s whose characters stand for
single bytes (every string the program builds uses code points below 256,
one per byte, so Lean string equality coincides with Go byte equality).

The Redis backend is modelled as an explicit state: an association list of
`(key, value, ttl)` entries plus the integer counter stored at the key
`next.url.id`.  The counter is kept as a separate field: the program touches
it only through `INCR next.url.id` and `GET next.url.id`, and the lemma
`counterKey_ne_formatted` below shows the formatted keys used by `SET`/`GET`
never collide with `next.url.id`, so the separation is faithful.

Backend connectivity failures are modelled by a fault schedule: a list of
booleans, one per backend round-trip in program order, `true` meaning that
call fails with a connection error (an error that is neither `redis.Nil`
nor a successful reply).  A missing entry means no fault.
-/

/-- The Go `error` values that `redis.go` can return: a plain backend error
(connection failure and the like, carrying a message), or the repository's
`StatusError{Code, Err}` from the notes, which carries an HTTP-like status
code and an inner error message. -/
inductive GoErr where
  | backend (msg : String)
  | statusError (code : Nat) (msg : String)
deriving Repr, DecidableEq

deriving instance DecidableEq for Except

/-- One stored record of the key-value backend: a key, the stored string
value, and the TTL (in minutes) it was written with.  Expiry itself is not
exercised by any claim (all claims are about behavior before expiry), so the
TTL is recorded but time never advances. -/
structure Entry where
  key : String
  value : String
  ttlMinutes : Int
deriving Repr, DecidableEq

/-- The backend state: the stored records plus the counter at `next.url.id`
(0 when the key is absent; `INCR` initializes absent keys to 0 before
incrementing). -/
structure RedisState where
  counter : Nat
  store : List Entry
deriving Repr, DecidableEq

/-- `URLIDKEY = "next.url.id"` from src/redis.go. -/
def URLIDKEY : String := "next.url.id"

/-- `fmt.Sprintf(ShortlinkKey, c)` with `ShortlinkKey = "shortlink:%s:url"`. -/
def shortlinkKeyOf (c : String) : String := "shortlink:" ++ c ++ ":url"

/-- `fmt.Sprintf(URLHashKey, c)` with `URLHashKey = "urlhash:%s:url"`. -/
def urlHashKeyOf (c : String) : String := "urlhash:" ++ c ++ ":url"

/-- `fmt.Sprintf(ShortlinkDetailKey, c)` with
`ShortlinkDetailKey = "shortlink:%s:detail"`. -/
def shortlinkDetailKeyOf (c : String) : String := "shortlink:" ++ c ++ ":detail"

/-- The raw 20 bytes of the SHA-1 digest of the empty byte string, the value
`sha1.New()`'s `Sum` appends when no data has been written to the hash. -/
def sha1EmptyBytes : List Nat :=
  [0xda, 0x39, 0xa3, 0xee, 0x5e, 0x6b, 0x4b, 0x0d, 0x32, 0x55,
   0xbf, 0xef, 0x95, 0x60, 0x18, 0x90, 0xaf, 0xd8, 0x07, 0x09]

/-- The digest bytes as a model string (one character per byte). -/
def sha1EmptyStr : String := ⟨sha1EmptyBytes.map Char.ofNat⟩

/-- Embeds `toSha1` from src/redis.go: `sha := sha1.New()` followed by
`sha.Sum([]byte(str))`.  Go's `Sum` appends the digest of the data written
so far (none) to its argument, so the result is `str` followed by the fixed
20-byte SHA-1 digest of the empty string — not a digest of `str`. -/
def toSha1 (str : String) : String := str ++ sha1EmptyStr

/-- GET on the record store: the value stored at `k`, or `none` when the key
is absent (Go sees `redis.Nil`). -/
def storeGet : List Entry → String → Option String
  | [], _ => none
  | e :: rest, k => if e.key = k then some e.value else storeGet rest k

/-- Like `storeGet` but returning the whole entry, TTL included. -/
def storeGetE : List Entry → String → Option Entry
  | [], _ => none
  | e :: rest, k => if e.key = k then some e else storeGetE rest k

/-- SET with TTL: unconditionally stores `v` at `k` with TTL `ttl`,
replacing any prior value. -/
def storeSet (l : List Entry) (k v : String) (ttl : Int) : List Entry :=
  ⟨k, v, ttl⟩ :: l.filter (fun e => !(e.key == k))

/-- Modelled from the spec (§4.2): the base-62 alphabet — 62 symbols,
digits, lowercase, uppercase, in a fixed order.  The actual encoder is the
external `pilu/go-base62` library, which is not part of this repository's
sources. -/
def b62chars : List Char :=
  "0123456789abcdefghijklmnopqrstuvwxyzABCDEFGHIJKLMNOPQRSTUVWXYZ".data

/-- The symbol for digit value `d` (0 ≤ d < 62). -/
def b62digit (d : Nat) : Char := b62chars.getD d '0'

/-- Least-significant-first digit string of `n` in base 62, with explicit
fuel (`n` itself suffices, since the argument strictly decreases). -/
def base62RevAux : Nat → Nat → List Char
  | 0, _ => []
  | _ + 1, 0 => []
  | fuel + 1, n + 1 => b62digit ((n + 1) % 62) :: base62RevAux fuel ((n + 1) / 62)

/-- Modelled from the spec (§4.2): `encode(n)` — positional base-62,
most-significant symbol first, no leading zeros except for the single-symbol
representation of zero. -/
def base62Encode (n : Nat) : String :=
  if n = 0 then "0" else ⟨(base62RevAux n n).reverse⟩

/-- The digit value of a symbol (62 when the character is outside the
alphabet). -/
def b62val (c : Char) : Nat := b62chars.indexOf c

/-- Modelled from the spec (§4.2): `decode(s)` — positional base-62 read
most-significant symbol first. -/
def base62Decode (s : String) : Nat :=
  s.data.foldl (fun acc c => acc * 62 + b62val c) 0

/-- Modelled from the spec (§4.2): `encode` over signed input "is undefined
(or fails) for negative input"; the checked entry point fails on negatives. -/
def base62EncodeChecked (n : Int) : Option String :=
  if n < 0 then none else some (base62Encode n.toNat)

/-- The sentinel "empty" marker the dedup branch compares against
(`d == "{}"` in src/redis.go). -/
def sentinelEmpty : String := "\x7b\x7d"

/-- Models the `json.Marshal(&URLDetail{...})` payload: a JSON object with
the url, the creation timestamp (`time.Now().String()`, passed in as `now`),
and the expiration window.  `json.Marshal` cannot fail on this struct. -/
def detailJson (url now : String) (exp : Int) : String :=
  "\x7b\"url\":\"" ++ url ++ "\",\"created_at\":\"" ++ now ++
    "\",\"expiration_in_minutes\":" ++ toString exp ++ "\x7d"

/-- The allocation tail of `RedisCli.Shorten` (src/redis.go lines 59–94):
`INCR next.url.id` (fault index 1), `GET next.url.id` read-back (fault
index 2), `base62.Encode`, then the three `SET`s with the caller-supplied
TTL (fault indices 3, 4, 5), each returning `("", err)` on failure.  A
faulted `SET` applies no write; a faulted `INCR` does not increment. -/
def shortenAlloc (faults : List Bool) (s : RedisState) (now url : String)
    (exp : Int) : RedisState × Except GoErr String :=
  if faults.getD 1 false then (s, .error (.backend "connection")) else
  let s1 : RedisState := { s with counter := s.counter + 1 }
  if faults.getD 2 false then (s1, .error (.backend "connection")) else
  let id := s1.counter
  let eid := base62Encode id
  if faults.getD 3 false then (s1, .error (.backend "connection")) else
  let s2 : RedisState := { s1 with store := storeSet s1.store (shortlinkKeyOf eid) url exp }
  if faults.getD 4 false then (s2, .error (.backend "connection")) else
  let s3 : RedisState := { s2 with store := storeSet s2.store (urlHashKeyOf eid) url exp }
  if faults.getD 5 false then (s3, .error (.backend "connection")) else
  let s4 : RedisState := { s3 with store := storeSet s3.store (shortlinkDetailKeyOf eid) (detailJson url now exp) exp }
  (s4, .ok eid)

/-- Embeds `RedisCli.Shorten` (src/redis.go lines 44–94).  First the dedup
lookup `GET urlhash:{toSha1(url)}:url` (fault index 0): on `redis.Nil`
(absent) fall through to allocation; on any other error `return "", err`;
on success return the stored value unless it equals the `"\x7b\x7d"`
sentinel.  `now` stands for `time.Now().String()`. -/
def Shorten (faults : List Bool) (s : RedisState) (now url : String)
    (exp : Int) : RedisState × Except GoErr String :=
  if faults.getD 0 false then (s, .error (.backend "connection"))
  else
    match storeGet s.store (urlHashKeyOf (toSha1 url)) with
    | some d =>
        if d = sentinelEmpty then shortenAlloc faults s now url exp
        else (s, .ok d)
    | none => shortenAlloc faults s now url exp

/-- Embeds `RedisCli.Unshorten` (src/redis.go lines 108–117): `GET
shortlink:{eid}:url`; on `redis.Nil` return `StatusError{404, err}` (the
inner error is `redis.Nil`, whose message is "redis: nil"); on any other
error return it; otherwise return the url.  A pure read: no state change. -/
def Unshorten (fault : Bool) (s : RedisState) (eid : String) :
    Except GoErr String :=
  if fault then .error (.backend "connection")
  else
    match storeGet s.store (shortlinkKeyOf eid) with
    | none => .error (.statusError 404 "redis: nil")
    | some url => .ok url

/-- Embeds `RedisCli.ShortlinkInfo` (src/redis.go lines 97–106): `GET
shortlink:{eid}:detail`; on `redis.Nil` return
`StatusError{404, errors.New("Unknown short URL")}`; on any other error
return it; otherwise return the stored detail. -/
def ShortlinkInfo (fault : Bool) (s : RedisState) (eid : String) :
    Except GoErr String :=
  if fault then .error (.backend "connection")
  else
    match storeGet s.store (shortlinkDetailKeyOf eid) with
    | none => .error (.statusError 404 "Unknown short URL")
    | some d => .ok d

/-- The empty backend: no records, counter absent (0). -/
def S0 : RedisState := ⟨0, []⟩

/-- All keys in the store are pure ASCII (every character below code point
128).  This holds for every state reachable from `S0` by `Shorten` calls —
the program only ever writes keys built from the alphanumeric base-62 code —
and it forces the dedup lookup to miss, because the lookup key embeds
`toSha1 url`, which contains the byte `0xda` of the SHA-1 digest. -/
def asciiKeys (s : RedisState) : Prop :=
  ∀ e ∈ s.store, ∀ c ∈ e.key.data, c.toNat < 128

/-! ## Basic facts about the store -/

theorem storeGet_filter (l : List Entry) (k k' : String) (h : k' ≠ k) :
    storeGet (l.filter (fun e => !(e.key == k))) k' = storeGet l k' := by
  induction l with
  | nil => rfl
  | cons e rest ih =>
      by_cases he : e.key = k
      · have hne : ¬e.key = k' := by rw [he]; exact Ne.symm h
        simp [List.filter_cons, he, storeGet, hne, ih, Ne.symm h]
      · by_cases he' : e.key = k' <;>
          simp [List.filter_cons, he, storeGet, he', ih, h, Ne.symm h]

theorem storeGetE_filter (l : List Entry) (k k' : String) (h : k' ≠ k) :
    storeGetE (l.filter (fun e => !(e.key == k))) k' = storeGetE l k' := by
  induction l with
  | nil => rfl
  | cons e rest ih =>
      by_cases he : e.key = k
      · have hne : ¬e.key = k' := by rw [he]; exact Ne.symm h
        simp [List.filter_cons, he, storeGetE, hne, ih, Ne.symm h]
      · by_cases he' : e.key = k' <;>
          simp [List.filter_cons, he, storeGetE, he', ih, h, Ne.symm h]

theorem storeGet_storeSet_same (l : List Entry) (k v : String) (t : Int) :
    storeGet (storeSet l k v t) k = some v := by
  simp [storeGet, storeSet]

theorem storeGet_storeSet_other (l : List Entry) (k v : String) (t : Int)
    (k' : String) (h : k' ≠ k) : storeGet (storeSet l k v t) k' = storeGet l k' := by
  show (if k = k' then some v else storeGet (l.filter (fun e => !(e.key == k))) k')
      = storeGet l k'
  rw [if_neg (Ne.symm h), storeGet_filter l k k' h]

theorem storeGetE_storeSet_same (l : List Entry) (k v : String) (t : Int) :
    storeGetE (storeSet l k v t) k = some ⟨k, v, t⟩ := by
  simp [storeGetE, storeSet]

theorem storeGetE_storeSet_other (l : List Entry) (k v : String) (t : Int)
    (k' : String) (h : k' ≠ k) : storeGetE (storeSet l k v t) k' = storeGetE l k' := by
  show (if k = k' then some ⟨k, v, t⟩ else storeGetE (l.filter (fun e => !(e.key == k))) k')
      = storeGetE l k'
  rw [if_neg (Ne.symm h), storeGetE_filter l k k' h]

theorem storeGet_some_mem (l : List Entry) (k v : String)
    (h : storeGet l k = some v) : ∃ e ∈ l, e.key = k ∧ e.value = v := by
  induction l with
  | nil => simp [storeGet] at h
  | cons e rest ih =>
      by_cases he : e.key = k
      · refine ⟨e, List.mem_cons_self e rest, he, ?_⟩
        have h2 := h
        simp only [storeGet, if_pos he, Option.some.injEq] at h2
        exact h2
      · simp only [storeGet, if_neg he] at h
        obtain ⟨e', he', hk, hv⟩ := ih h
        exact ⟨e', List.mem_cons_of_mem _ he', hk, hv⟩

/-! ## The base-62 encoder: round-trip, length, alphabet -/

theorem b62val_b62digit_lt (d : Nat) (h : d < 62) : b62val (b62digit d) = d := by
  have hall : ∀ x : Fin 62, b62val (b62digit x.val) = x.val := by decide
  exact hall ⟨d, h⟩

theorem b62digit_mem_lt (d : Nat) (h : d < 62) : b62digit d ∈ b62chars := by
  have hall : ∀ x : Fin 62, b62digit x.val ∈ b62chars := by decide
  exact hall ⟨d, h⟩

theorem base62RevAux_foldr (fuel : Nat) : ∀ n, n ≤ fuel →
    (base62RevAux fuel n).foldr (fun c acc => acc * 62 + b62val c) 0 = n := by
  induction fuel with
  | zero =>
      intro n hn
      interval_cases n
      simp [base62RevAux]
  | succ f ih =>
      intro n hn
      match n with
      | 0 => simp [base62RevAux]
      | m + 1 =>
          have hdiv : (m + 1) / 62 ≤ f := by
            have := Nat.div_lt_self (Nat.succ_pos m) (by norm_num : 1 < 62)
            omega
          have hval : b62val (b62digit ((m + 1) % 62)) = (m + 1) % 62 :=
            b62val_b62digit_lt _ (Nat.mod_lt _ (by norm_num))
          simp only [base62RevAux, List.foldr_cons]
          rw [ih _ hdiv, hval]
          omega

theorem base62_decode_encode (n : Nat) : base62Decode (base62Encode n) = n := by
  by_cases h : n = 0
  · subst h; decide
  · unfold base62Encode
    rw [if_neg h]
    show ((base62RevAux n n).reverse).foldl (fun acc c => acc * 62 + b62val c) 0 = n
    rw [List.foldl_reverse]
    exact base62RevAux_foldr n n le_rfl

theorem base62Encode_injective : Function.Injective base62Encode := by
  intro a b h
  have := congrArg base62Decode h
  rwa [base62_decode_encode, base62_decode_encode] at this

theorem base62RevAux_length (fuel : Nat) : ∀ n k, n < 62 ^ k →
    (base62RevAux fuel n).length ≤ k := by
  induction fuel with
  | zero => intro n k _; simp [base62RevAux]
  | succ f ih =>
      intro n k hk
      match n with
      | 0 => simp [base62RevAux]
      | m + 1 =>
          match k with
          | 0 => simp [pow_zero] at hk
          | j + 1 =>
              have hdiv : (m + 1) / 62 < 62 ^ j := by
                rw [Nat.div_lt_iff_lt_mul (by norm_num : 0 < 62)]
                calc m + 1 < 62 ^ (j + 1) := hk
                  _ = 62 ^ j * 62 := pow_succ 62 j
              simp only [base62RevAux, List.length_cons]
              have := ih ((m + 1) / 62) j hdiv
              omega

theorem base62Encode_length_le (n k : Nat) (hk : 1 ≤ k) (h : n < 62 ^ k) :
    (base62Encode n).length ≤ k := by
  by_cases h0 : n = 0
  · subst h0
    simpa [base62Encode] using hk
  · unfold base62Encode
    rw [if_neg h0]
    show ((base62RevAux n n).reverse).length ≤ k
    rw [List.length_reverse]
    exact base62RevAux_length n n k h

theorem base62Encode_length_pos (n : Nat) : 1 ≤ (base62Encode n).length := by
  match n with
  | 0 => decide
  | m + 1 =>
      show 1 ≤ ((base62RevAux (m + 1) (m + 1)).reverse).length
      simp [base62RevAux]

theorem base62RevAux_mem (fuel : Nat) : ∀ n c, c ∈ base62RevAux fuel n →
    c ∈ b62chars := by
  induction fuel with
  | zero => intro n c hc; simp [base62RevAux] at hc
  | succ f ih =>
      intro n c hc
      match n with
      | 0 => simp [base62RevAux] at hc
      | m + 1 =>
          simp only [base62RevAux, List.mem_cons] at hc
          rcases hc with hc | hc
          · subst hc
            exact b62digit_mem_lt _ (Nat.mod_lt _ (by norm_num))
          · exact ih _ _ hc

theorem base62Encode_chars (n : Nat) : ∀ c ∈ (base62Encode n).data, c ∈ b62chars := by
  intro c hc
  by_cases h0 : n = 0
  · subst h0
    simp only [base62Encode, if_pos rfl] at hc
    have : c = '0' := by simpa using hc
    subst this
    decide
  · simp only [base62Encode, if_neg h0] at hc
    have : c ∈ (base62RevAux n n).reverse := hc
    rw [List.mem_reverse] at this
    exact base62RevAux_mem n n c this

/-- The regular-expression character class `[a-zA-Z0-9]` of the spec. -/
def isAlnumChar (c : Char) : Bool :=
  ('0' ≤ c && c ≤ '9') || ('a' ≤ c && c ≤ 'z') || ('A' ≤ c && c ≤ 'Z')

theorem b62chars_alnum : ∀ c ∈ b62chars, isAlnumChar c = true := by decide

theorem b62chars_ascii : ∀ c ∈ b62chars, c.toNat < 128 := by decide

/-! ## Key-space facts -/

theorem ascii_append (a b : String)
    (ha : ∀ x ∈ a.data, x.toNat < 128) (hb : ∀ x ∈ b.data, x.toNat < 128) :
    ∀ x ∈ (a ++ b).data, x.toNat < 128 := by
  intro x hx
  rw [String.data_append] at hx
  rcases List.mem_append.mp hx with h | h
  · exact ha x h
  · exact hb x h

theorem base62Encode_ascii (n : Nat) :
    ∀ x ∈ (base62Encode n).data, x.toNat < 128 :=
  fun x hx => b62chars_ascii x (base62Encode_chars n x hx)

theorem shortlinkKeyOf_ascii (c : String) (hc : ∀ x ∈ c.data, x.toNat < 128) :
    ∀ x ∈ (shortlinkKeyOf c).data, x.toNat < 128 :=
  ascii_append _ _ (ascii_append _ _ (by decide) hc) (by decide)

theorem urlHashKeyOf_ascii (c : String) (hc : ∀ x ∈ c.data, x.toNat < 128) :
    ∀ x ∈ (urlHashKeyOf c).data, x.toNat < 128 :=
  ascii_append _ _ (ascii_append _ _ (by decide) hc) (by decide)

theorem shortlinkDetailKeyOf_ascii (c : String) (hc : ∀ x ∈ c.data, x.toNat < 128) :
    ∀ x ∈ (shortlinkDetailKeyOf c).data, x.toNat < 128 :=
  ascii_append _ _ (ascii_append _ _ (by decide) hc) (by decide)

/-- The dedup lookup key embeds `toSha1 url`, whose digest suffix contains
the non-ASCII byte `0xda`. -/
theorem urlHashKeyOf_toSha1_not_ascii (u : String) :
    ∃ x ∈ (urlHashKeyOf (toSha1 u)).data, ¬x.toNat < 128 := by
  refine ⟨Char.ofNat 0xda, ?_, by decide⟩
  show Char.ofNat 0xda ∈ ("urlhash:" ++ (u ++ sha1EmptyStr) ++ ":url").data
  rw [String.data_append, String.data_append, String.data_append]
  have hmem : Char.ofNat 0xda ∈ sha1EmptyStr.data := by decide
  simp only [List.mem_append]
  exact Or.inl (Or.inr (Or.inr hmem))

/-- In an all-ASCII store — which every state reachable by the program is —
the dedup lookup of `Shorten` always misses: the program writes the
fingerprint record under `urlhash:{code}:url`, never under
`urlhash:{toSha1(url)}:url`, the key the lookup asks for. -/
theorem dedupMiss (s : RedisState) (u : String) (h : asciiKeys s) :
    storeGet s.store (urlHashKeyOf (toSha1 u)) = none := by
  cases hg : storeGet s.store (urlHashKeyOf (toSha1 u)) with
  | none => rfl
  | some v =>
      obtain ⟨e, he, hk, _⟩ := storeGet_some_mem _ _ _ hg
      obtain ⟨x, hx, hxn⟩ := urlHashKeyOf_toSha1_not_ascii u
      rw [← hk] at hx
      exact absurd (h e he x hx) hxn

theorem shortlinkKeyOf_ne_urlHashKeyOf (c c' : String) :
    shortlinkKeyOf c ≠ urlHashKeyOf c' := by
  intro h
  have h2 := congrArg (fun s => s.data.headD ' ') h
  simp only [shortlinkKeyOf, urlHashKeyOf, String.data_append] at h2
  exact absurd (show ('s' : Char) = 'u' from h2) (by decide)

theorem shortlinkDetailKeyOf_ne_urlHashKeyOf (c c' : String) :
    shortlinkDetailKeyOf c ≠ urlHashKeyOf c' := by
  intro h
  have h2 := congrArg (fun s => s.data.headD ' ') h
  simp only [shortlinkDetailKeyOf, urlHashKeyOf, String.data_append] at h2
  exact absurd (show ('s' : Char) = 'u' from h2) (by decide)

theorem shortlinkDetailKeyOf_ne_shortlinkKeyOf (c c' : String) :
    shortlinkDetailKeyOf c ≠ shortlinkKeyOf c' := by
  intro h
  have h2 := congrArg (fun s => s.data.reverse.getD 1 ' ') h
  simp only [shortlinkDetailKeyOf, shortlinkKeyOf, String.data_append,
    List.reverse_append] at h2
  exact absurd (show ('i' : Char) = 'r' from h2) (by decide)

/-- The counter key `next.url.id` never collides with any formatted key
(they start with different characters), so keeping the counter in a
separate state field is faithful to the single Redis key space. -/
theorem counterKey_ne_formatted (c : String) :
    URLIDKEY ≠ shortlinkKeyOf c ∧ URLIDKEY ≠ urlHashKeyOf c ∧
      URLIDKEY ≠ shortlinkDetailKeyOf c := by
  refine ⟨?_, ?_, ?_⟩ <;> intro h <;>
    have h2 := congrArg (fun s => s.data.headD ' ') h <;>
    simp only [URLIDKEY, shortlinkKeyOf, urlHashKeyOf, shortlinkDetailKeyOf,
      String.data_append] at h2
  · exact absurd (show ('n' : Char) = 's' from h2) (by decide)
  · exact absurd (show ('n' : Char) = 'u' from h2) (by decide)
  · exact absurd (show ('n' : Char) = 's' from h2) (by decide)

/-! ## The fault-free behavior of `Shorten` -/

/-- The store after a successful allocation for `url`: the three records of
step 5, each written with the caller-supplied TTL, keyed by the new code. -/
def postStore (s : RedisState) (now url : String) (exp : Int) : List Entry :=
  storeSet
    (storeSet
      (storeSet s.store (shortlinkKeyOf (base62Encode (s.counter + 1))) url exp)
      (urlHashKeyOf (base62Encode (s.counter + 1))) url exp)
    (shortlinkDetailKeyOf (base62Encode (s.counter + 1)))
    (detailJson url now exp) exp

/-- With no faults and an all-ASCII store, `Shorten` takes the allocation
path: the dedup lookup misses, the counter is bumped, and the three records
are written. -/
theorem shorten_nofault_eq (s : RedisState) (now url : String) (exp : Int)
    (h : asciiKeys s) :
    Shorten [] s now url exp =
      (⟨s.counter + 1, postStore s now url exp⟩,
        .ok (base62Encode (s.counter + 1))) := by
  have hm := dedupMiss s url h
  simp [Shorten, shortenAlloc, hm, postStore]

theorem asciiKeys_S0 : asciiKeys S0 := by
  intro e he
  simp [S0] at he

theorem asciiStore_storeSet (l : List Entry) (k v : String) (t : Int)
    (h : ∀ e ∈ l, ∀ x ∈ e.key.data, x.toNat < 128)
    (hk : ∀ x ∈ k.data, x.toNat < 128) :
    ∀ e ∈ storeSet l k v t, ∀ x ∈ e.key.data, x.toNat < 128 := by
  intro e he
  simp only [storeSet, List.mem_cons] at he
  rcases he with he | he
  · subst he; exact hk
  · exact h e (List.mem_of_mem_filter he)

/-- The all-ASCII-keys invariant is preserved by a fault-free `Shorten`. -/
theorem asciiKeys_postStore (s : RedisState) (now url : String) (exp : Int)
    (h : asciiKeys s) : asciiKeys ⟨s.counter + 1, postStore s now url exp⟩ := by
  intro e he
  have h1 := asciiStore_storeSet s.store
    (shortlinkKeyOf (base62Encode (s.counter + 1))) url exp h
    (shortlinkKeyOf_ascii _ (base62Encode_ascii _))
  have h2 := asciiStore_storeSet _
    (urlHashKeyOf (base62Encode (s.counter + 1))) url exp h1
    (urlHashKeyOf_ascii _ (base62Encode_ascii _))
  have h3 := asciiStore_storeSet _
    (shortlinkDetailKeyOf (base62Encode (s.counter + 1)))
    (detailJson url now exp) exp h2
    (shortlinkDetailKeyOf_ascii _ (base62Encode_ascii _))
  exact h3 e he

/-- `Shorten` never decreases the counter, whatever the faults and state:
the program never writes, deletes, or decrements `next.url.id` other than
through the single `INCR`. -/
theorem shorten_counter_mono (faults : List Bool) (s : RedisState)
    (now url : String) (exp : Int) :
    s.counter ≤ (Shorten faults s now url exp).1.counter := by
  unfold Shorten shortenAlloc
  split
  · exact le_rfl
  · split <;> (try split) <;>
      (repeat' split) <;> simp

/-! ## Sequences of `Shorten` calls -/

/-- Run a sequence of fault-free `Shorten` calls (one `(url, ttl)` pair per
call), threading the backend state, and collect the codes of the successful
calls. -/
def runShortens (s : RedisState) (now : String) :
    List (String × Int) → List String
  | [] => []
  | (u, e) :: rest =>
      match Shorten [] s now u e with
      | (s', .ok c) => c :: runShortens s' now rest
      | (s', .error _) => runShortens s' now rest

/-- In a reachable (all-ASCII) state every fault-free call allocates, so the
codes of a run are the encodings of the successive counter values. -/
theorem runShortens_eq_map (now : String) :
    ∀ (l : List (String × Int)) (s : RedisState), asciiKeys s →
      runShortens s now l =
        (List.range l.length).map (fun i => base62Encode (s.counter + 1 + i)) := by
  intro l
  induction l with
  | nil => intro s _; simp [runShortens]
  | cons p rest ih =>
      intro s hs
      obtain ⟨u, e⟩ := p
      have hstep := shorten_nofault_eq s now u e hs
      have hs' := asciiKeys_postStore s now u e hs
      simp only [runShortens, hstep]
      rw [ih _ hs']
      rw [List.length_cons, List.range_succ_eq_map, List.map_cons, List.map_map]
      refine congrArg₂ List.cons ?_ ?_
      · exact congrArg base62Encode (by omega)
      · refine List.map_congr_left ?_
        intro i _
        simp only [Function.comp_apply]
        exact congrArg base62Encode (by omega)

/-! ## The claims -/

/-- C9: `toSha1(s)` returns `s` itself concatenated with a fixed 20-byte
constant (the SHA-1 digest of the empty byte string), not a SHA-1 digest of
`s`; it is deterministic (it is a function) and injective — distinct URLs
get distinct fingerprints with certainty — and its output is always 20
bytes longer than its input and embeds the full URL as a prefix. -/
theorem tosha1_shape (a b : String) :
    toSha1 a = a ++ sha1EmptyStr ∧
    sha1EmptyStr.length = 20 ∧
    (toSha1 a).length = a.length + 20 ∧
    (toSha1 a = toSha1 b → a = b) := by
  have h20 : sha1EmptyStr.length = 20 := by decide
  refine ⟨rfl, h20, ?_, ?_⟩
  · rw [toSha1, String.length_append, h20]
  · intro h
    have hd := congrArg String.data h
    rw [toSha1, toSha1, String.data_append, String.data_append] at hd
    exact String.ext (List.append_cancel_right hd)

theorem tosha1_shape_witness :
    toSha1 "https://www.baidu.com" = "https://www.baidu.com" ++ sha1EmptyStr ∧
    ("https://www.baidu.com" : String) = "https://www.baidu.com" :=
  ⟨(tosha1_shape "https://www.baidu.com" "https://www.baidu.com").1,
   (tosha1_shape "https://www.baidu.com" "https://www.baidu.com").2.2.2 rfl⟩

/-- C4: for every non-negative integer up to the maximum supported magnitude
(the 64-bit non-negative range), `decode(encode(n)) = n` over the fixed
62-symbol alphanumeric alphabet, and `encode` fails for negative input. -/
theorem base62_round_trip (n : Nat) (m : Int) (_hn : n ≤ 2 ^ 63 - 1)
    (hm : m < 0) :
    base62Decode (base62Encode n) = n ∧ base62EncodeChecked m = none :=
  ⟨base62_decode_encode n, by simp [base62EncodeChecked, hm]⟩

theorem base62_round_trip_witness :
    base62Decode (base62Encode 123456789) = 123456789 ∧
    base62EncodeChecked (-1) = none :=
  base62_round_trip 123456789 (-1) (by norm_num) (by norm_num)

/-- C5: when the URL Record (resp. Detail Record) for a code is absent,
`Unshorten` (resp. `ShortlinkInfo`) fails with the classified
`StatusError` carrying status 404; on any other backend read error both
fail with the unclassified backend error. -/
theorem notfound_classification (s : RedisState) (eid : String) :
    (storeGet s.store (shortlinkKeyOf eid) = none →
      Unshorten false s eid = .error (.statusError 404 "redis: nil")) ∧
    Unshorten true s eid = .error (.backend "connection") ∧
    (storeGet s.store (shortlinkDetailKeyOf eid) = none →
      ShortlinkInfo false s eid = .error (.statusError 404 "Unknown short URL")) ∧
    ShortlinkInfo true s eid = .error (.backend "connection") := by
  refine ⟨?_, rfl, ?_, rfl⟩ <;> intro h <;> simp [Unshorten, ShortlinkInfo, h]

theorem notfound_classification_witness :
    Unshorten false S0 "doesNotExist" = .error (.statusError 404 "redis: nil") ∧
    ShortlinkInfo false S0 "doesNotExist" =
      .error (.statusError 404 "Unknown short URL") :=
  ⟨(notfound_classification S0 "doesNotExist").1 rfl,
   (notfound_classification S0 "doesNotExist").2.2.1 rfl⟩

/-- C2 (as amended): if the dedup lookup of `shorten` fails with a backend
error (an error other than key-absent), `shorten` returns that error
immediately — it does not proceed to allocate, and the backend state is
unchanged.  (The claim as frozen says the opposite: see the
counterexample.) -/
theorem shorten_lookup_error_returns (fs : List Bool) (s : RedisState)
    (now url : String) (exp : Int) :
    Shorten (true :: fs) s now url exp = (s, .error (.backend "connection")) := rfl

/-- C2, counterexample to the claim as stated: with a backend fault on the
dedup lookup, `shorten` returns the backend error and allocates nothing
(the result is an error, not a code, and the counter stays 0). -/
theorem shorten_lookup_error_counterexample :
    (Shorten [true] S0 "t0" "https://www.baidu.com" 60).2 =
      .error (.backend "connection") ∧
    (Shorten [true] S0 "t0" "https://www.baidu.com" 60).1 = S0 :=
  ⟨rfl, rfl⟩

/-- C1: the claim promises that two sequential `shorten` calls for the same
URL dedup to the same code.  The code violates this: the dedup lookup asks
for `urlhash:{toSha1(url)}:url` but the write in step 5 stores
`urlhash:{code}:url`, so the lookup never hits and the second call
allocates a fresh code — from the empty state the two calls return "1" and
then "2". -/
theorem shorten_dedup_bug :
    (Shorten [] S0 "t0" "https://www.baidu.com" 60).2 = .ok "1" ∧
    (Shorten [] (Shorten [] S0 "t0" "https://www.baidu.com" 60).1 "t0"
        "https://www.baidu.com" 60).2 = .ok "2" ∧
    ("1" : String) ≠ "2" := by decide

/-- C3: if `shorten(u, t)` returns code `c` without error (fault-free, from
a reachable — all-ASCII — state), then `unshorten(c)` run on the resulting
state, before any expiry or intervening write, returns `u` without error. -/
theorem resolution_consistency (s s' : RedisState) (now url : String)
    (exp : Int) (c : String) (hs : asciiKeys s)
    (h : Shorten [] s now url exp = (s', .ok c)) :
    Unshorten false s' c = .ok url := by
  rw [shorten_nofault_eq s now url exp hs] at h
  have h1 : (⟨s.counter + 1, postStore s now url exp⟩ : RedisState) = s' :=
    congrArg Prod.fst h
  have h2 : base62Encode (s.counter + 1) = c := by
    have := congrArg Prod.snd h
    exact Except.ok.inj this
  subst h1
  subst h2
  set k := base62Encode (s.counter + 1) with hk
  have hne1 : shortlinkKeyOf k ≠ shortlinkDetailKeyOf k :=
    Ne.symm (shortlinkDetailKeyOf_ne_shortlinkKeyOf k k)
  have hne2 : shortlinkKeyOf k ≠ urlHashKeyOf k := shortlinkKeyOf_ne_urlHashKeyOf k k
  have hget : storeGet (postStore s now url exp) (shortlinkKeyOf k) = some url := by
    unfold postStore
    rw [storeGet_storeSet_other _ _ _ _ _ hne1,
        storeGet_storeSet_other _ _ _ _ _ hne2,
        storeGet_storeSet_same]
  simp [Unshorten, hget]

theorem resolution_consistency_witness :
    Unshorten false (Shorten [] S0 "t0" "https://www.baidu.com" 60).1 "1" =
      .ok "https://www.baidu.com" :=
  resolution_consistency S0 (Shorten [] S0 "t0" "https://www.baidu.com" 60).1
    "t0" "https://www.baidu.com" 60 "1" (by simp [asciiKeys, S0]) (by decide)

/-- C6: the counter at `next.url.id` never decreases under any `Shorten`
call (it is only ever touched by the single `INCR`); a call that reaches
allocation observes exactly the post-increment value `counter + 1`,
strictly greater than every earlier counter value; and along any sequence
of fault-free `shorten` calls with pairwise-distinct URLs from a reachable
(all-ASCII) state, the returned codes are pairwise distinct. -/
theorem counter_monotone_unique :
    (∀ (faults : List Bool) (s : RedisState) (now url : String) (exp : Int),
        s.counter ≤ (Shorten faults s now url exp).1.counter) ∧
    (∀ (s : RedisState) (now url : String) (exp : Int), asciiKeys s →
        (Shorten [] s now url exp).2 = .ok (base62Encode (s.counter + 1)) ∧
        (Shorten [] s now url exp).1.counter = s.counter + 1) ∧
    (∀ (s : RedisState) (now : String) (l : List (String × Int)),
        asciiKeys s → l.Pairwise (fun a b => a.1 ≠ b.1) →
        (runShortens s now l).Pairwise (· ≠ ·)) := by
  refine ⟨fun f s now u e => shorten_counter_mono f s now u e, ?_, ?_⟩
  · intro s now url exp hs
    rw [shorten_nofault_eq s now url exp hs]
    exact ⟨rfl, rfl⟩
  · intro s now l hs _
    rw [runShortens_eq_map now l s hs]
    have hinj : Function.Injective (fun i => base62Encode (s.counter + 1 + i)) := by
      intro a b hab
      have := base62Encode_injective hab
      omega
    exact (List.nodup_range l.length).map hinj

theorem counter_monotone_unique_witness :
    (runShortens S0 "t0" [("https://a.example", 60), ("https://b.example", 30)]).Pairwise
      (· ≠ ·) :=
  counter_monotone_unique.2.2 S0 "t0" [("https://a.example", 60), ("https://b.example", 30)]
    (by simp [asciiKeys, S0]) (by decide)

/-- C7: a fault-free successful `shorten(u, t)` from a reachable
(all-ASCII) state writes exactly three records keyed by the new code `c` —
`shortlink:{c}:url = u`, `urlhash:{c}:url = u`, and
`shortlink:{c}:detail` = the serialized detail — each carrying the
caller-supplied TTL `t`, and leaves every other key untouched; and when any
one of the three writes fails (each case covered: the `shortlink` write,
the `urlhash` write, and the `detail` write), `shorten` returns the backend
error while the writes that already succeeded are not rolled back — they
remain in the backend. -/
theorem shorten_writes_three (s : RedisState) (now url : String) (exp : Int)
    (hs : asciiKeys s) :
    (Shorten [] s now url exp =
        (⟨s.counter + 1, postStore s now url exp⟩,
          .ok (base62Encode (s.counter + 1))) ∧
      storeGetE (postStore s now url exp)
          (shortlinkKeyOf (base62Encode (s.counter + 1))) =
        some ⟨shortlinkKeyOf (base62Encode (s.counter + 1)), url, exp⟩ ∧
      storeGetE (postStore s now url exp)
          (urlHashKeyOf (base62Encode (s.counter + 1))) =
        some ⟨urlHashKeyOf (base62Encode (s.counter + 1)), url, exp⟩ ∧
      storeGetE (postStore s now url exp)
          (shortlinkDetailKeyOf (base62Encode (s.counter + 1))) =
        some ⟨shortlinkDetailKeyOf (base62Encode (s.counter + 1)),
          detailJson url now exp, exp⟩ ∧
      ∀ k, k ≠ shortlinkKeyOf (base62Encode (s.counter + 1)) →
        k ≠ urlHashKeyOf (base62Encode (s.counter + 1)) →
        k ≠ shortlinkDetailKeyOf (base62Encode (s.counter + 1)) →
        storeGetE (postStore s now url exp) k = storeGetE s.store k) ∧
    ((Shorten [false, false, false, true] s now url exp).2 =
        .error (.backend "connection") ∧
      (Shorten [false, false, false, true] s now url exp).1.store = s.store) ∧
    ((Shorten [false, false, false, false, true] s now url exp).2 =
        .error (.backend "connection") ∧
      storeGet (Shorten [false, false, false, false, true] s now url exp).1.store
          (shortlinkKeyOf (base62Encode (s.counter + 1))) = some url) ∧
    ((Shorten [false, false, false, false, false, true] s now url exp).2 =
        .error (.backend "connection") ∧
      storeGet (Shorten [false, false, false, false, false, true] s now url exp).1.store
          (shortlinkKeyOf (base62Encode (s.counter + 1))) = some url ∧
      storeGet (Shorten [false, false, false, false, false, true] s now url exp).1.store
          (urlHashKeyOf (base62Encode (s.counter + 1))) = some url) := by
  set c := base62Encode (s.counter + 1) with hc
  have hm := dedupMiss s url hs
  have hne1 : urlHashKeyOf c ≠ shortlinkDetailKeyOf c :=
    Ne.symm (shortlinkDetailKeyOf_ne_urlHashKeyOf c c)
  have hne2 : shortlinkKeyOf c ≠ shortlinkDetailKeyOf c :=
    Ne.symm (shortlinkDetailKeyOf_ne_shortlinkKeyOf c c)
  have hne3 : shortlinkKeyOf c ≠ urlHashKeyOf c := shortlinkKeyOf_ne_urlHashKeyOf c c
  refine ⟨⟨shorten_nofault_eq s now url exp hs, ?_, ?_, ?_, ?_⟩,
    ⟨?_, ?_⟩, ⟨?_, ?_⟩, ⟨?_, ?_, ?_⟩⟩
  · unfold postStore
    rw [storeGetE_storeSet_other _ _ _ _ _ hne2,
        storeGetE_storeSet_other _ _ _ _ _ hne3,
        storeGetE_storeSet_same]
  · unfold postStore
    rw [storeGetE_storeSet_other _ _ _ _ _ hne1, storeGetE_storeSet_same]
  · unfold postStore
    rw [storeGetE_storeSet_same]
  · intro k hk1 hk2 hk3
    unfold postStore
    rw [storeGetE_storeSet_other _ _ _ _ _ hk3,
        storeGetE_storeSet_other _ _ _ _ _ hk2,
        storeGetE_storeSet_other _ _ _ _ _ hk1]
  · simp [Shorten, shortenAlloc, hm]
  · simp [Shorten, shortenAlloc, hm]
  · simp [Shorten, shortenAlloc, hm]
  · have hrun : (Shorten [false, false, false, false, true] s now url exp).1.store =
        storeSet s.store (shortlinkKeyOf c) url exp := by
      simp [Shorten, shortenAlloc, hm]
    rw [hrun, storeGet_storeSet_same]
  · simp [Shorten, shortenAlloc, hm]
  · have hrun : (Shorten [false, false, false, false, false, true] s now url exp).1.store =
        storeSet (storeSet s.store (shortlinkKeyOf c) url exp) (urlHashKeyOf c) url exp := by
      simp [Shorten, shortenAlloc, hm]
    rw [hrun, storeGet_storeSet_other _ _ _ _ _ hne3, storeGet_storeSet_same]
  · have hrun : (Shorten [false, false, false, false, false, true] s now url exp).1.store =
        storeSet (storeSet s.store (shortlinkKeyOf c) url exp) (urlHashKeyOf c) url exp := by
      simp [Shorten, shortenAlloc, hm]
    rw [hrun, storeGet_storeSet_same]

theorem shorten_writes_three_witness :
    (Shorten [false, false, false, false, true] S0 "t0" "https://www.baidu.com" 60).2 =
      .error (.backend "connection") ∧
    storeGet (Shorten [false, false, false, false, true] S0 "t0"
        "https://www.baidu.com" 60).1.store
      (shortlinkKeyOf (base62Encode (S0.counter + 1))) = some "https://www.baidu.com" ∧
    (Shorten [false, false, false, false, false, true] S0 "t0"
        "https://www.baidu.com" 60).2 = .error (.backend "connection") ∧
    storeGet (Shorten [false, false, false, false, false, true] S0 "t0"
        "https://www.baidu.com" 60).1.store
      (urlHashKeyOf (base62Encode (S0.counter + 1))) = some "https://www.baidu.com" :=
  ⟨(shorten_writes_three S0 "t0" "https://www.baidu.com" 60 (by simp [asciiKeys, S0])).2.2.1.1,
   (shorten_writes_three S0 "t0" "https://www.baidu.com" 60 (by simp [asciiKeys, S0])).2.2.1.2,
   (shorten_writes_three S0 "t0" "https://www.baidu.com" 60 (by simp [asciiKeys, S0])).2.2.2.1,
   (shorten_writes_three S0 "t0" "https://www.baidu.com" 60 (by simp [asciiKeys, S0])).2.2.2.2.2⟩

/-- C8: for every counter value in the 64-bit non-negative range, a
fault-free successful `shorten` from a reachable (all-ASCII) state returns
a code of 1 to 11 characters drawn only from the alphanumeric alphabet,
i.e. matching the character class of `^[a-zA-Z0-9]{1,11}$`. -/
theorem short_code_shape (s : RedisState) (now url : String) (exp : Int)
    (hs : asciiKeys s) (hrange : s.counter + 1 ≤ 2 ^ 63 - 1) :
    ∃ c : String,
      (Shorten [] s now url exp).2 = .ok c ∧
      1 ≤ c.length ∧ c.length ≤ 11 ∧
      ∀ x ∈ c.data, isAlnumChar x = true := by
  refine ⟨base62Encode (s.counter + 1), ?_, base62Encode_length_pos _, ?_, ?_⟩
  · rw [shorten_nofault_eq s now url exp hs]
  · refine base62Encode_length_le _ 11 (by norm_num) ?_
    calc s.counter + 1 ≤ 2 ^ 63 - 1 := hrange
      _ < 62 ^ 11 := by norm_num
  · intro x hx
    exact b62chars_alnum x (base62Encode_chars _ x hx)

theorem short_code_shape_witness :
    ∃ c : String,
      (Shorten [] S0 "t0" "https://www.baidu.com" 60).2 = .ok c ∧
      1 ≤ c.length ∧ c.length ≤ 11 ∧
      ∀ x ∈ c.data, isAlnumChar x = true :=
  short_code_shape S0 "t0" "https://www.baidu.com" 60 (by simp [asciiKeys, S0])
    (by show 0 + 1 ≤ 2 ^ 63 - 1; norm_num)

/-- C10: `shorten` is not atomic with respect to the counter — when a step
after the successful `INCR` fails (the counter read-back, or any of the
three record writes; the detail serialization cannot fail), `shorten`
returns an error yet the counter remains incremented: the consumed
identifier is never released and the final state differs from the pre-call
state. -/
theorem shorten_counter_leak (s : RedisState) (now url : String) (exp : Int)
    (hs : asciiKeys s) :
    ((Shorten [false, false, true] s now url exp).2 = .error (.backend "connection") ∧
      (Shorten [false, false, true] s now url exp).1.counter = s.counter + 1) ∧
    ((Shorten [false, false, false, true] s now url exp).2 = .error (.backend "connection") ∧
      (Shorten [false, false, false, true] s now url exp).1.counter = s.counter + 1) ∧
    ((Shorten [false, false, false, false, true] s now url exp).2 = .error (.backend "connection") ∧
      (Shorten [false, false, false, false, true] s now url exp).1.counter = s.counter + 1) ∧
    ((Shorten [false, false, false, false, false, true] s now url exp).2 = .error (.backend "connection") ∧
      (Shorten [false, false, false, false, false, true] s now url exp).1.counter = s.counter + 1) ∧
    (Shorten [false, false, true] s now url exp).1 ≠ s := by
  have hm := dedupMiss s url hs
  have h1 : (Shorten [false, false, true] s now url exp).1.counter = s.counter + 1 := by
    simp [Shorten, shortenAlloc, hm]
  refine ⟨⟨?_, h1⟩, ⟨?_, ?_⟩, ⟨?_, ?_⟩, ⟨?_, ?_⟩, ?_⟩
  · simp [Shorten, shortenAlloc, hm]
  · simp [Shorten, shortenAlloc, hm]
  · simp [Shorten, shortenAlloc, hm]
  · simp [Shorten, shortenAlloc, hm]
  · simp [Shorten, shortenAlloc, hm]
  · simp [Shorten, shortenAlloc, hm]
  · simp [Shorten, shortenAlloc, hm]
  · intro heq
    have := congrArg RedisState.counter heq
    rw [h1] at this
    omega

theorem shorten_counter_leak_witness :
    (Shorten [false, false, true] S0 "t0" "https://www.baidu.com" 60).2 =
      .error (.backend "connection") ∧
    (Shorten [false, false, true] S0 "t0" "https://www.baidu.com" 60).1.counter =
      S0.counter + 1 :=
  (shorten_counter_leak S0 "t0" "https://www.baidu.com" 60 (by simp [asciiKeys, S0])).1
